import Mathlib

/-!
Verification of the per-cluster client cache of the shipper repository
(package pkg/clusterclientstore/cache) and of the controller-enablement
logic of the main command.

The cache implementation itself (the Server command loop and the cluster
handle) is exercised by src/pkg/clusterclientstore/cache/server_test.go but
its source file is not part of the provided sources, so the Server and
cluster operations below are modelled from the specification; the
buildEnabledControllers function is translated directly from the main
package source.

Go maps are modelled as association lists with decidable-equality keys;
pointer-shared cluster handles are modelled as a heap from numeric handle
identifiers to handle states, so that a caller-held handle can be observed
after the registry has replaced or removed it.
-/

namespace Shipper

/-- Association-list lookup, modelling Go map indexing `m[k]`. -/
def lookupA {κ α : Type} [DecidableEq κ] : List (κ × α) → κ → Option α
  | [], _ => none
  | (k, v) :: rest, i => if k = i then some v else lookupA rest i

/-- Association-list update, modelling Go map assignment `m[k] = v`
for a key already present (every binding of the key is overwritten). -/
def setA {κ α : Type} [DecidableEq κ] : List (κ × α) → κ → α → List (κ × α)
  | [], _, _ => []
  | (k, v) :: rest, i, w => if k = i then (i, w) :: setA rest i w else (k, v) :: setA rest i w

/-- Association-list deletion, modelling Go `delete(m, k)`. -/
def eraseA {κ α : Type} [DecidableEq κ] : List (κ × α) → κ → List (κ × α)
  | [], _ => []
  | (k, v) :: rest, i => if k = i then eraseA rest i else (k, v) :: eraseA rest i

/-- Modelled from the spec: the one-way readiness flag of a cluster handle,
"Ready, then Invalidated, never reverts". -/
inductive Readiness : Type
  | Ready : Readiness
  | Invalidated : Readiness
deriving DecidableEq

/-- Modelled from the spec: the cluster handle. It bundles the identity
(name), the de-duplication checksum, the live resources (client, config,
informerFactory, abstracted as numeric identifiers), the readiness flag and
a counter of how many times the release callback bound at construction has
been invoked (the callback itself is abstracted; only its invocation count
matters to the claims). -/
structure cluster : Type where
  name : String
  checksum : String
  client : Nat
  config : Nat
  informerFactory : Nat
  state : Readiness
  releaseCount : Nat
deriving DecidableEq

/-- Modelled from the spec: construction binds name, checksum, client,
config, informerFactory and the release callback; the handle starts Ready
with the release callback not yet invoked. -/
def NewCluster (name checksum : String) (client config informerFactory : Nat) : cluster :=
  { name := name, checksum := checksum, client := client, config := config,
    informerFactory := informerFactory, state := Readiness.Ready, releaseCount := 0 }

/-- Modelled from the spec: Invalidate is an idempotent one-way transition;
on the first successful transition it invokes release exactly once
(recorded by incrementing releaseCount); subsequent calls are no-ops. -/
def cluster.Invalidate (c : cluster) : cluster :=
  match c.state with
  | Readiness.Ready =>
      { c with state := Readiness.Invalidated, releaseCount := c.releaseCount + 1 }
  | Readiness.Invalidated => c

/-- Modelled from the spec: the single error kind of this core,
ClusterNotReady, carrying the cluster name. -/
inductive ShipperError : Type
  | ClusterNotReady : String → ShipperError
deriving DecidableEq

/-- Modelled from the spec: the predicate errors.IsClusterNotReady that
recognizes the ClusterNotReady error kind. -/
def IsClusterNotReady : ShipperError → Bool
  | ShipperError.ClusterNotReady _ => true

/-- Modelled from the spec: GetChecksum fails with ClusterNotReady once the
handle is Invalidated, and returns the bound checksum while Ready. -/
def cluster.GetChecksum (c : cluster) : Except ShipperError String :=
  match c.state with
  | Readiness.Ready => Except.ok c.checksum
  | Readiness.Invalidated => Except.error (ShipperError.ClusterNotReady c.name)

/-- Modelled from the spec: GetClient, same failure mode as GetChecksum. -/
def cluster.GetClient (c : cluster) : Except ShipperError Nat :=
  match c.state with
  | Readiness.Ready => Except.ok c.client
  | Readiness.Invalidated => Except.error (ShipperError.ClusterNotReady c.name)

/-- Modelled from the spec: GetConfig, same failure mode as GetChecksum. -/
def cluster.GetConfig (c : cluster) : Except ShipperError Nat :=
  match c.state with
  | Readiness.Ready => Except.ok c.config
  | Readiness.Invalidated => Except.error (ShipperError.ClusterNotReady c.name)

/-- Modelled from the spec: GetInformerFactory, same failure mode as
GetChecksum. -/
def cluster.GetInformerFactory (c : cluster) : Except ShipperError Nat :=
  match c.state with
  | Readiness.Ready => Except.ok c.informerFactory
  | Readiness.Invalidated => Except.error (ShipperError.ClusterNotReady c.name)

/-- Modelled from the spec: the Server state. `registry` maps a cluster
name to the handle identifier of its single current cluster; `handles` is
the heap of all handles ever stored, keyed by handle identifier, so that a
handle invalidated by replacement or removal can still be observed by a
caller that held it. -/
structure Server : Type where
  registry : List (String × Nat)
  handles : List (Nat × cluster)
deriving DecidableEq

/-- Modelled from the spec: a fresh Server with an empty registry. -/
def NewServer : Server := { registry := [], handles := [] }

/-- Invalidate the handle stored under identifier `j` in the heap. -/
def invalidateAt : List (Nat × cluster) → Nat → List (Nat × cluster)
  | [], _ => []
  | (k, v) :: rest, j =>
      if k = j then (k, v.Invalidate) :: invalidateAt rest j
      else (k, v) :: invalidateAt rest j

/-- Modelled from the spec: Store(c). No existing entry for c.name inserts
c (here under the fresh handle identifier `i`); an existing entry with the
same checksum discards c entirely with no mutation; an existing entry with
a different checksum is replaced in the registry and the superseded handle
is invalidated. -/
def Server.Store (s : Server) (i : Nat) (c : cluster) : Server :=
  match lookupA s.registry c.name with
  | none =>
      { registry := (c.name, i) :: s.registry, handles := (i, c) :: s.handles }
  | some j =>
      match lookupA s.handles j with
      | none => s
      | some e =>
          if e.checksum = c.checksum then s
          else
            { registry := setA s.registry c.name i,
              handles := (i, c) :: invalidateAt s.handles j }

/-- Modelled from the spec: Fetch(name) returns the entry currently in the
registry for the name, or nothing if absent. -/
def Server.Fetch (s : Server) (n : String) : Option cluster :=
  match lookupA s.registry n with
  | none => none
  | some j => lookupA s.handles j

/-- Modelled from the spec: Remove(name) deletes a present entry and
invalidates it; removing an absent name is a no-op. -/
def Server.Remove (s : Server) (n : String) : Server :=
  match lookupA s.registry n with
  | none => s
  | some j =>
      { registry := eraseA s.registry n, handles := invalidateAt s.handles j }

/-- Modelled from the spec: Count() is the number of entries currently in
the registry. -/
def Server.Count (s : Server) : Nat := s.registry.length

/-- A cluster handle is reachable from the registry for a name when the
registry maps the name to its handle identifier. -/
def Reachable (s : Server) (n : String) (c : cluster) : Prop :=
  ∃ j, lookupA s.registry n = some j ∧ lookupA s.handles j = some c

/-- Apply a sequence of Store operations, each with its handle identifier. -/
def storeAll : Server → List (Nat × cluster) → Server
  | s, [] => s
  | s, (i, c) :: rest => storeAll (s.Store i c) rest

/-! ### Lemmas about the association-list map primitives -/

theorem lookupA_setA_self {κ α : Type} [DecidableEq κ] (l : List (κ × α)) (k : κ) (w : α) :
    lookupA (setA l k w) k = (lookupA l k).map (fun _ => w) := by
  induction l with
  | nil => simp [lookupA, setA]
  | cons p rest ih =>
      obtain ⟨k0, v0⟩ := p
      by_cases h : k0 = k
      · subst h
        simp [lookupA, setA]
      · simp [lookupA, setA, h, ih]

theorem lookupA_setA_ne {κ α : Type} [DecidableEq κ] (l : List (κ × α)) (k : κ) (w : α)
    (i : κ) (hik : i ≠ k) :
    lookupA (setA l k w) i = lookupA l i := by
  induction l with
  | nil => simp [lookupA, setA]
  | cons p rest ih =>
      obtain ⟨k0, v0⟩ := p
      by_cases h : k0 = k
      · subst h
        simp [lookupA, setA, Ne.symm hik, ih]
      · by_cases h2 : k0 = i
        · subst h2
          simp [lookupA, setA, h]
        · simp [lookupA, setA, h, h2, ih]

theorem setA_length {κ α : Type} [DecidableEq κ] (l : List (κ × α)) (k : κ) (w : α) :
    (setA l k w).length = l.length := by
  induction l with
  | nil => simp [setA]
  | cons p rest ih =>
      obtain ⟨k0, v0⟩ := p
      by_cases h : k0 = k <;> simp [setA, h, ih]

theorem lookupA_eraseA_self {κ α : Type} [DecidableEq κ] (l : List (κ × α)) (k : κ) :
    lookupA (eraseA l k) k = none := by
  induction l with
  | nil => simp [lookupA, eraseA]
  | cons p rest ih =>
      obtain ⟨k0, v0⟩ := p
      by_cases h : k0 = k <;> simp [lookupA, eraseA, h, ih]

theorem lookupA_mem_keys {κ α : Type} [DecidableEq κ] (l : List (κ × α)) (k : κ) (v : α)
    (h : lookupA l k = some v) : k ∈ l.map Prod.fst := by
  induction l with
  | nil => simp [lookupA] at h
  | cons p rest ih =>
      obtain ⟨k0, v0⟩ := p
      by_cases hk : k0 = k
      · subst hk
        simp
      · simp [lookupA, hk] at h
        simp [ih h]

theorem eraseA_not_mem {κ α : Type} [DecidableEq κ] (l : List (κ × α)) (k : κ)
    (h : k ∉ l.map Prod.fst) : eraseA l k = l := by
  induction l with
  | nil => simp [eraseA]
  | cons p rest ih =>
      obtain ⟨k0, v0⟩ := p
      simp only [List.map_cons, List.mem_cons, not_or] at h
      simp [eraseA, Ne.symm h.1, ih h.2]

theorem eraseA_length {κ α : Type} [DecidableEq κ] (l : List (κ × α)) (k : κ) (v : α)
    (hnd : (l.map Prod.fst).Nodup) (hmem : lookupA l k = some v) :
    (eraseA l k).length + 1 = l.length := by
  induction l with
  | nil => simp [lookupA] at hmem
  | cons p rest ih =>
      obtain ⟨k0, v0⟩ := p
      simp only [List.map_cons, List.nodup_cons] at hnd
      by_cases h : k0 = k
      · subst h
        simp [eraseA, eraseA_not_mem rest k0 hnd.1]
      · simp [lookupA, h] at hmem
        simp [eraseA, h, ih hnd.2 hmem]

theorem lookupA_invalidateAt_self (hs : List (Nat × cluster)) (j : Nat) :
    lookupA (invalidateAt hs j) j = (lookupA hs j).map cluster.Invalidate := by
  induction hs with
  | nil => simp [lookupA, invalidateAt]
  | cons p rest ih =>
      obtain ⟨k0, v0⟩ := p
      by_cases h : k0 = j <;> simp [lookupA, invalidateAt, h, ih]

theorem lookupA_invalidateAt_ne (hs : List (Nat × cluster)) (j : Nat) (i : Nat) (hij : i ≠ j) :
    lookupA (invalidateAt hs j) i = lookupA hs i := by
  induction hs with
  | nil => simp [lookupA, invalidateAt]
  | cons p rest ih =>
      obtain ⟨k0, v0⟩ := p
      by_cases h : k0 = j
      · subst h
        simp [lookupA, invalidateAt, Ne.symm hij, ih]
      · by_cases h2 : k0 = i
        · subst h2
          simp [lookupA, invalidateAt, h]
        · simp [lookupA, invalidateAt, h, h2, ih]

/-! ### Lemmas about the cluster handle -/

theorem invalidate_state (c : cluster) : (cluster.Invalidate c).state = Readiness.Invalidated := by
  cases h : c.state <;> simp [cluster.Invalidate, h]

theorem invalidate_name (c : cluster) : (cluster.Invalidate c).name = c.name := by
  cases h : c.state <;> simp [cluster.Invalidate, h]

theorem invalidate_of_invalidated (c : cluster) (h : c.state = Readiness.Invalidated) :
    cluster.Invalidate c = c := by
  simp [cluster.Invalidate, h]

theorem accessors_of_invalidated (c : cluster) (h : c.state = Readiness.Invalidated) :
    c.GetChecksum = Except.error (ShipperError.ClusterNotReady c.name)
    ∧ c.GetClient = Except.error (ShipperError.ClusterNotReady c.name)
    ∧ c.GetConfig = Except.error (ShipperError.ClusterNotReady c.name)
    ∧ c.GetInformerFactory = Except.error (ShipperError.ClusterNotReady c.name) := by
  simp [cluster.GetChecksum, cluster.GetClient, cluster.GetConfig,
    cluster.GetInformerFactory, h]

/-- A same-name, same-checksum Store is discarded entirely: the state is
unchanged. Shared helper for the duplicate-store claims. -/
theorem store_dup_eq (s : Server) (i : Nat) (c : cluster) (j : Nat) (e : cluster)
    (hr : lookupA s.registry c.name = some j)
    (hh : lookupA s.handles j = some e)
    (hsum : e.checksum = c.checksum) :
    s.Store i c = s := by
  simp [Server.Store, hr, hh, hsum]

/-- Storing any list of clusters whose names are pairwise distinct and all
absent from the registry adds one registry entry per cluster. -/
theorem storeAll_fresh_count (cs : List (Nat × cluster)) :
    ∀ s : Server, (cs.map (fun p => p.2.name)).Nodup →
      (∀ p ∈ cs, lookupA s.registry p.2.name = none) →
      (storeAll s cs).Count = s.Count + cs.length := by
  induction cs with
  | nil => intro s _ _; simp [storeAll]
  | cons q rest ih =>
      intro s hnd hfresh
      obtain ⟨i, c⟩ := q
      simp only [List.map_cons, List.nodup_cons] at hnd
      have hc : lookupA s.registry c.name = none := hfresh (i, c) (by simp)
      have hstore : s.Store i c =
          { registry := (c.name, i) :: s.registry, handles := (i, c) :: s.handles } := by
        simp [Server.Store, hc]
      have hrest : ∀ p ∈ rest, lookupA (s.Store i c).registry p.2.name = none := by
        intro p hp
        have hne : c.name ≠ p.2.name := by
          intro he
          apply hnd.1
          rw [he]
          exact List.mem_map_of_mem (fun p => p.2.name) hp
        rw [hstore]
        simp only [lookupA, hne, if_false]
        exact hfresh p (List.mem_cons_of_mem _ hp)
      have hcount := ih (s.Store i c) hnd.2 hrest
      simp only [storeAll]
      rw [hcount, hstore]
      simp [Server.Count]
      omega

/-- Storing a list of clusters each of which the Server discards leaves the
Server unchanged. -/
theorem storeAll_same (s : Server) : ∀ cs : List (Nat × cluster),
    (∀ p ∈ cs, s.Store p.1 p.2 = s) → storeAll s cs = s := by
  intro cs
  induction cs with
  | nil => intro _; simp [storeAll]
  | cons q rest ih =>
      intro h
      obtain ⟨i, c⟩ := q
      have h1 : s.Store i c = s := h (i, c) (by simp)
      simp only [storeAll, h1]
      exact ih (fun p hp => h p (List.mem_cons_of_mem _ hp))

/-! ### Concrete fixtures used by the witnesses -/

def clusterA : cluster := NewCluster "test-cluster" "test-checksum" 0 0 0

def clusterA2 : cluster := NewCluster "test-cluster" "test-checksum" 2 2 2

def clusterB : cluster := NewCluster "test-cluster" "other-checksum" 1 1 1

def clusterC : cluster := NewCluster "other-cluster" "test-checksum" 3 3 3

def srv0 : Server := NewServer.Store 0 clusterA

/-! ### The claims -/

/-- Claim C1: storing a cluster c2 whose name is already bound to a handle
c1 with a different checksum rebinds the name to c2 with the registry size
unchanged, Fetch returns c2, and c1 has been invalidated so that all four
accessors on it fail with ClusterNotReady. -/
theorem claim_C1_replacement (s : Server) (i j : Nat) (c1 c2 : cluster)
    (hr : lookupA s.registry c2.name = some j)
    (hh : lookupA s.handles j = some c1)
    (hsum : c1.checksum ≠ c2.checksum)
    (hfresh : lookupA s.handles i = none) :
    lookupA (s.Store i c2).registry c2.name = some i
    ∧ (s.Store i c2).Count = s.Count
    ∧ (s.Store i c2).Fetch c2.name = some c2
    ∧ lookupA (s.Store i c2).handles j = some c1.Invalidate
    ∧ (cluster.Invalidate c1).state = Readiness.Invalidated
    ∧ (cluster.Invalidate c1).GetChecksum = Except.error (ShipperError.ClusterNotReady c1.name)
    ∧ (cluster.Invalidate c1).GetClient = Except.error (ShipperError.ClusterNotReady c1.name)
    ∧ (cluster.Invalidate c1).GetConfig = Except.error (ShipperError.ClusterNotReady c1.name)
    ∧ (cluster.Invalidate c1).GetInformerFactory
        = Except.error (ShipperError.ClusterNotReady c1.name)
    ∧ IsClusterNotReady (ShipperError.ClusterNotReady c1.name) = true := by
  have hij : i ≠ j := by
    intro he
    rw [he, hh] at hfresh
    exact Option.noConfusion hfresh
  have hstore : s.Store i c2 =
      { registry := setA s.registry c2.name i,
        handles := (i, c2) :: invalidateAt s.handles j } := by
    simp [Server.Store, hr, hh, hsum]
  obtain ⟨h6, h7, h8, h9⟩ :=
    accessors_of_invalidated (cluster.Invalidate c1) (invalidate_state c1)
  rw [invalidate_name] at h6 h7 h8 h9
  refine ⟨?_, ?_, ?_, ?_, invalidate_state c1, h6, h7, h8, h9, rfl⟩
  · rw [hstore]
    simp only
    rw [lookupA_setA_self, hr]
    rfl
  · rw [hstore]
    simp [Server.Count, setA_length]
  · rw [hstore]
    simp only [Server.Fetch]
    rw [lookupA_setA_self, hr]
    simp [lookupA]
  · rw [hstore]
    simp only [lookupA, hij, if_false]
    rw [lookupA_invalidateAt_self, hh]
    rfl

/-- Claim C2: Invalidate is an idempotent one-way transition to
Invalidated; it invokes the release callback exactly once, on the first
transition from Ready, and every subsequent call is a no-op, so that a
handle constructed by NewCluster and invalidated any positive number of
times has had its release callback invoked exactly once. -/
theorem claim_C2_invalidate_once :
    (∀ c : cluster, (cluster.Invalidate c).state = Readiness.Invalidated)
    ∧ (∀ c : cluster, cluster.Invalidate (cluster.Invalidate c) = cluster.Invalidate c)
    ∧ (∀ c : cluster, c.state = Readiness.Ready →
        (cluster.Invalidate c).releaseCount = c.releaseCount + 1)
    ∧ (∀ c : cluster, c.state = Readiness.Invalidated → cluster.Invalidate c = c)
    ∧ (∀ (n ch : String) (cl cf fa : Nat) (k : Nat),
        Nat.iterate cluster.Invalidate (k + 1) (NewCluster n ch cl cf fa)
          = cluster.Invalidate (NewCluster n ch cl cf fa))
    ∧ (∀ (n ch : String) (cl cf fa : Nat) (k : Nat),
        (Nat.iterate cluster.Invalidate (k + 1) (NewCluster n ch cl cf fa)).releaseCount
          = 1) := by
  have hfix : ∀ (k : Nat) (c : cluster), c.state = Readiness.Invalidated →
      Nat.iterate cluster.Invalidate k c = c := by
    intro k
    induction k with
    | zero => intro c _; rfl
    | succ m ih =>
        intro c h
        show Nat.iterate cluster.Invalidate m (cluster.Invalidate c) = c
        rw [invalidate_of_invalidated c h, ih c h]
  have hiter : ∀ (n ch : String) (cl cf fa : Nat) (k : Nat),
      Nat.iterate cluster.Invalidate (k + 1) (NewCluster n ch cl cf fa)
        = cluster.Invalidate (NewCluster n ch cl cf fa) := by
    intro n ch cl cf fa k
    show Nat.iterate cluster.Invalidate k (cluster.Invalidate (NewCluster n ch cl cf fa))
      = cluster.Invalidate (NewCluster n ch cl cf fa)
    exact hfix k _ (invalidate_state _)
  refine ⟨invalidate_state, ?_, ?_, invalidate_of_invalidated, hiter, ?_⟩
  · intro c
    exact invalidate_of_invalidated _ (invalidate_state c)
  · intro c h
    simp [cluster.Invalidate, h]
  · intro n ch cl cf fa k
    rw [hiter]
    simp [NewCluster, cluster.Invalidate]

/-- Claim C3: every accessor of an Invalidated handle fails with an error
recognized by IsClusterNotReady; every accessor of a Ready handle returns
exactly the bound field with no error; an accessor error is never of any
other kind. -/
theorem claim_C3_accessors :
    (∀ c : cluster, c.state = Readiness.Invalidated →
        c.GetChecksum = Except.error (ShipperError.ClusterNotReady c.name)
      ∧ c.GetClient = Except.error (ShipperError.ClusterNotReady c.name)
      ∧ c.GetConfig = Except.error (ShipperError.ClusterNotReady c.name)
      ∧ c.GetInformerFactory = Except.error (ShipperError.ClusterNotReady c.name)
      ∧ IsClusterNotReady (ShipperError.ClusterNotReady c.name) = true)
    ∧ (∀ c : cluster, c.state = Readiness.Ready →
        c.GetChecksum = Except.ok c.checksum
      ∧ c.GetClient = Except.ok c.client
      ∧ c.GetConfig = Except.ok c.config
      ∧ c.GetInformerFactory = Except.ok c.informerFactory)
    ∧ (∀ (c : cluster) (err : ShipperError),
        (c.GetChecksum = Except.error err ∨ c.GetClient = Except.error err
          ∨ c.GetConfig = Except.error err ∨ c.GetInformerFactory = Except.error err) →
        IsClusterNotReady err = true) := by
  refine ⟨?_, ?_, ?_⟩
  · intro c h
    obtain ⟨h1, h2, h3, h4⟩ := accessors_of_invalidated c h
    exact ⟨h1, h2, h3, h4, rfl⟩
  · intro c h
    simp [cluster.GetChecksum, cluster.GetClient, cluster.GetConfig,
      cluster.GetInformerFactory, h]
  · intro c err _
    cases err
    rfl

/-- Claim C4: storing a cluster whose name is already bound to a handle
with the same checksum discards the new cluster entirely: the Server state
is unchanged, Fetch still returns the old handle, the old handle stays in
the heap untouched, and Count is unchanged. -/
theorem claim_C4_duplicate_store (s : Server) (i j : Nat) (c e : cluster)
    (hr : lookupA s.registry c.name = some j)
    (hh : lookupA s.handles j = some e)
    (hsum : e.checksum = c.checksum) :
    s.Store i c = s
    ∧ (s.Store i c).Fetch c.name = some e
    ∧ lookupA (s.Store i c).handles j = some e
    ∧ (s.Store i c).Count = s.Count := by
  have h1 := store_dup_eq s i c j e hr hh hsum
  refine ⟨h1, ?_, ?_, by rw [h1]⟩
  · rw [h1]
    simp [Server.Fetch, hr, hh]
  · rw [h1, hh]

/-- Claim C5: storing a cluster whose name has no entry in the registry
inserts it, increasing the registry size by one, and Fetch on its name then
returns it. -/
theorem claim_C5_fresh_store (s : Server) (i : Nat) (c : cluster)
    (hr : lookupA s.registry c.name = none) :
    (s.Store i c).Count = s.Count + 1
    ∧ (s.Store i c).Fetch c.name = some c := by
  have hstore : s.Store i c =
      { registry := (c.name, i) :: s.registry, handles := (i, c) :: s.handles } := by
    simp [Server.Store, hr]
  rw [hstore]
  constructor
  · simp [Server.Count]
  · simp [Server.Fetch, lookupA]

/-- Claim C6: removing a present name deletes its entry and invalidates its
handle: Fetch then misses, Count decreases by exactly one, and all four
accessors on the removed handle fail with ClusterNotReady. -/
theorem claim_C6_remove (s : Server) (j : Nat) (n : String) (e : cluster)
    (hr : lookupA s.registry n = some j)
    (hh : lookupA s.handles j = some e)
    (hnd : (s.registry.map Prod.fst).Nodup) :
    (s.Remove n).Fetch n = none
    ∧ (s.Remove n).Count + 1 = s.Count
    ∧ lookupA (s.Remove n).handles j = some e.Invalidate
    ∧ (cluster.Invalidate e).GetChecksum = Except.error (ShipperError.ClusterNotReady e.name)
    ∧ (cluster.Invalidate e).GetClient = Except.error (ShipperError.ClusterNotReady e.name)
    ∧ (cluster.Invalidate e).GetConfig = Except.error (ShipperError.ClusterNotReady e.name)
    ∧ (cluster.Invalidate e).GetInformerFactory
        = Except.error (ShipperError.ClusterNotReady e.name) := by
  have hrem : s.Remove n =
      { registry := eraseA s.registry n, handles := invalidateAt s.handles j } := by
    simp [Server.Remove, hr]
  obtain ⟨h1, h2, h3, h4⟩ :=
    accessors_of_invalidated (cluster.Invalidate e) (invalidate_state e)
  rw [invalidate_name] at h1 h2 h3 h4
  refine ⟨?_, ?_, ?_, h1, h2, h3, h4⟩
  · rw [hrem]
    simp [Server.Fetch, lookupA_eraseA_self]
  · rw [hrem]
    simpa [Server.Count] using eraseA_length s.registry n j hnd hr
  · rw [hrem]
    simp only
    rw [lookupA_invalidateAt_self, hh]
    rfl

/-- Claim C9: removing an absent name is a no-op: the Server state, hence
the registry and Count, are unchanged and no handle is invalidated. -/
theorem claim_C9_remove_absent (s : Server) (n : String)
    (hr : lookupA s.registry n = none) :
    s.Remove n = s ∧ (s.Remove n).Count = s.Count := by
  have h : s.Remove n = s := by simp [Server.Remove, hr]
  exact ⟨h, by rw [h]⟩

/-- Claim C7: Count always equals the number of registry keys (also as a
count of distinct keys when the keys are duplicate-free), at most one
cluster handle is reachable from the registry for a given name, storing any
number of clusters with pairwise-distinct names into a fresh Server yields
Count equal to that number, and storing one name repeatedly with an
identical checksum yields Count equal to one. -/
theorem claim_C7_count :
    (∀ s : Server, s.Count = (s.registry.map Prod.fst).length)
    ∧ (∀ s : Server, (s.registry.map Prod.fst).Nodup →
        s.Count = (s.registry.map Prod.fst).dedup.length)
    ∧ (∀ (s : Server) (n : String) (c c2 : cluster),
        Reachable s n c → Reachable s n c2 → c = c2)
    ∧ (∀ cs : List (Nat × cluster), (cs.map (fun p => p.2.name)).Nodup →
        (storeAll NewServer cs).Count = cs.length)
    ∧ (∀ (i : Nat) (c : cluster) (cs : List (Nat × cluster)),
        (∀ p ∈ cs, p.2.name = c.name ∧ p.2.checksum = c.checksum) →
        (storeAll (NewServer.Store i c) cs).Count = 1) := by
  refine ⟨?_, ?_, ?_, ?_, ?_⟩
  · intro s
    simp [Server.Count]
  · intro s h
    rw [List.dedup_eq_self.mpr h]
    simp [Server.Count]
  · rintro s n c c2 ⟨j, hj, hc⟩ ⟨j2, hj2, hc2⟩
    rw [hj] at hj2
    injection hj2 with he
    subst he
    rw [hc] at hc2
    injection hc2 with he2
  · intro cs hnd
    have h := storeAll_fresh_count cs NewServer hnd (fun p _ => rfl)
    simpa [NewServer, Server.Count] using h
  · intro i c cs hsame
    have hs1 : NewServer.Store i c =
        { registry := [(c.name, i)], handles := [(i, c)] } := by
      simp [Server.Store, NewServer, lookupA]
    rw [hs1]
    have hall : ∀ p ∈ cs,
        Server.Store { registry := [(c.name, i)], handles := [(i, c)] } p.1 p.2
          = { registry := [(c.name, i)], handles := [(i, c)] } := by
      intro p hp
      apply store_dup_eq _ p.1 p.2 i c
      · simp [lookupA, (hsame p hp).1]
      · simp [lookupA]
      · exact ((hsame p hp).2).symm
    rw [storeAll_same _ cs hall]
    simp [Server.Count]

/-! ### The controller-enablement logic of the main command -/

/-- Split a list of characters at commas. Together with splitComma this
models the Go standard-library call strings.Split(s, ",") used by
buildEnabledControllers: an empty input yields one empty field, and
adjacent commas yield empty fields. -/
def splitCommaChars : List Char → List String
  | [] => [""]
  | ch :: rest =>
      let r := splitCommaChars rest
      if ch = ',' then "" :: r
      else
        match r with
        | [] => [String.mk [ch]]
        | hd :: tl => String.mk (ch :: hd.data) :: tl

/-- Split a string at commas, modelling strings.Split(s, ","). -/
def splitComma (s : String) : List String := splitCommaChars s.data

/-- The list of known controller names, translated from the main package. -/
def controllers : List String :=
  ["application", "shipmentorder", "clustersecret", "schedule", "strategy",
    "installation", "capacity", "traffic"]

/-- One pass of buildEnabledControllers over a user-supplied name list:
empty entries are skipped, an unknown name aborts the process via
glog.Fatalf (modelled as none), and each known name is set to v in the
willRun map. -/
def applyControllerList (v : Bool) :
    List (String × Bool) → List String → Option (List (String × Bool))
  | m, [] => some m
  | m, controller :: rest =>
      if controller = "" then applyControllerList v m rest
      else
        match lookupA m controller with
        | none => none
        | some _ => applyControllerList v (setA m controller v) rest

/-- Translated from the main package source: buildEnabledControllers
initializes the willRun map with every known controller mapped to false,
applies the comma-separated enabled list setting entries to true, then
applies the comma-separated disabled list setting entries to false. -/
def buildEnabledControllers (enabledControllers disabledControllers : String) :
    Option (List (String × Bool)) :=
  match applyControllerList true (controllers.map (fun controller => (controller, false)))
      (splitComma enabledControllers) with
  | none => none
  | some m1 =>
      match applyControllerList false m1 (splitComma disabledControllers) with
      | none => none
      | some m2 => some m2

theorem keys_setA {κ α : Type} [DecidableEq κ] (l : List (κ × α)) (k : κ) (w : α) :
    (setA l k w).map Prod.fst = l.map Prod.fst := by
  induction l with
  | nil => simp [setA]
  | cons p rest ih =>
      obtain ⟨k0, v0⟩ := p
      by_cases h : k0 = k
      · subst h
        simp [setA, ih]
      · simp [setA, h, ih]

theorem applyControllerList_keys (v : Bool) :
    ∀ (ns : List String) (m m2 : List (String × Bool)),
      applyControllerList v m ns = some m2 → m2.map Prod.fst = m.map Prod.fst := by
  intro ns
  induction ns with
  | nil =>
      intro m m2 h
      simp only [applyControllerList, Option.some.injEq] at h
      rw [← h]
  | cons controller rest ih =>
      intro m m2 h
      simp only [applyControllerList] at h
      by_cases hc : controller = ""
      · rw [if_pos hc] at h
        exact ih m m2 h
      · rw [if_neg hc] at h
        cases hl : lookupA m controller with
        | none => rw [hl] at h; cases h
        | some b =>
            rw [hl] at h
            rw [ih (setA m controller v) m2 h, keys_setA]

theorem applyControllerList_lookup_preserved (v : Bool) :
    ∀ (ns : List String) (m m2 : List (String × Bool)) (k : String),
      lookupA m k = some v → applyControllerList v m ns = some m2 →
      lookupA m2 k = some v := by
  intro ns
  induction ns with
  | nil =>
      intro m m2 k hk h
      simp only [applyControllerList, Option.some.injEq] at h
      rw [← h]
      exact hk
  | cons controller rest ih =>
      intro m m2 k hk h
      simp only [applyControllerList] at h
      by_cases hc : controller = ""
      · rw [if_pos hc] at h
        exact ih m m2 k hk h
      · rw [if_neg hc] at h
        cases hl : lookupA m controller with
        | none => rw [hl] at h; cases h
        | some b =>
            rw [hl] at h
            apply ih (setA m controller v) m2 k _ h
            by_cases hkc : k = controller
            · subst hkc
              rw [lookupA_setA_self, hk]
              rfl
            · rw [lookupA_setA_ne _ _ _ _ hkc]
              exact hk

theorem applyControllerList_mem_set (v : Bool) :
    ∀ (ns : List String) (m m2 : List (String × Bool)) (k : String),
      k ∈ ns → k ≠ "" → applyControllerList v m ns = some m2 →
      lookupA m2 k = some v := by
  intro ns
  induction ns with
  | nil =>
      intro m m2 k hk
      simp at hk
  | cons controller rest ih =>
      intro m m2 k hk hne h
      simp only [applyControllerList] at h
      by_cases hc : controller = ""
      · rw [if_pos hc] at h
        have hkr : k ∈ rest := by
          rcases List.mem_cons.mp hk with h1 | h1
          · exact absurd (h1.trans hc) hne
          · exact h1
        exact ih m m2 k hkr hne h
      · rw [if_neg hc] at h
        cases hl : lookupA m controller with
        | none => rw [hl] at h; cases h
        | some b =>
            rw [hl] at h
            by_cases hkc : k = controller
            · subst hkc
              apply applyControllerList_lookup_preserved v rest (setA m k v) m2 k _ h
              rw [lookupA_setA_self, hl]
              rfl
            · have hkr : k ∈ rest := by
                rcases List.mem_cons.mp hk with h1 | h1
                · exact absurd h1 hkc
                · exact h1
              exact ih (setA m controller v) m2 k hkr hne h

/-- Claim C10: in buildEnabledControllers the disabled list overrides the
enabled list: any known, non-empty controller name appearing in both
comma-separated inputs ends up marked false in the returned map, because
the disabled entries are applied after the enabled entries; and the
returned map binds exactly the eight known controller names. -/
theorem claim_C10_disable_overrides (e d name : String) (m : List (String × Bool))
    (hm : buildEnabledControllers e d = some m)
    (hknown : name ∈ controllers)
    (he : name ∈ splitComma e)
    (hd : name ∈ splitComma d)
    (hne : name ≠ "") :
    lookupA m name = some false ∧ m.map Prod.fst = controllers := by
  simp only [buildEnabledControllers] at hm
  cases h1 : applyControllerList true (controllers.map (fun controller => (controller, false)))
      (splitComma e) with
  | none => rw [h1] at hm; cases hm
  | some m1 =>
      rw [h1] at hm
      dsimp only at hm
      cases h2 : applyControllerList false m1 (splitComma d) with
      | none => rw [h2] at hm; cases hm
      | some m2 =>
          rw [h2] at hm
          injection hm with hm
          subst hm
          constructor
          · exact applyControllerList_mem_set false (splitComma d) m1 m2 name hd hne h2
          · rw [applyControllerList_keys false (splitComma d) m1 m2 h2,
              applyControllerList_keys true (splitComma e)
                (controllers.map (fun controller => (controller, false))) m1 h1]
            have hid : (Prod.fst ∘ fun controller : String => (controller, false)) = id := rfl
            rw [List.map_map, hid, List.map_id]

/-- The willRun map produced for enabled "application,traffic" and
disabled "traffic". -/
def ctrlWitnessMap : List (String × Bool) :=
  [("application", true), ("shipmentorder", false), ("clustersecret", false),
    ("schedule", false), ("strategy", false), ("installation", false),
    ("capacity", false), ("traffic", false)]

/-! ### Witnesses -/

/-- Witness for claim C1 at a concrete replacement. -/
theorem claim_C1_replacement_witness :
    (srv0.Store 1 clusterB).Fetch clusterB.name = some clusterB
    ∧ lookupA (srv0.Store 1 clusterB).handles 0 = some clusterA.Invalidate := by
  have h := claim_C1_replacement srv0 1 0 clusterA clusterB (by decide) (by decide)
    (by decide) (by decide)
  exact ⟨h.2.2.1, h.2.2.2.1⟩

/-- Witness for claim C2 at a concrete handle. -/
theorem claim_C2_invalidate_once_witness :
    (cluster.Invalidate clusterA).releaseCount = clusterA.releaseCount + 1
    ∧ cluster.Invalidate (cluster.Invalidate clusterA) = cluster.Invalidate clusterA
    ∧ (Nat.iterate cluster.Invalidate 3
        (NewCluster "test-cluster" "other-checksum" 1 1 1)).releaseCount = 1 :=
  ⟨claim_C2_invalidate_once.2.2.1 clusterA (by decide),
    claim_C2_invalidate_once.2.1 clusterA,
    claim_C2_invalidate_once.2.2.2.2.2 "test-cluster" "other-checksum" 1 1 1 2⟩

/-- Witness for claim C3 at a concrete invalidated and a concrete ready
handle. -/
theorem claim_C3_accessors_witness :
    (cluster.Invalidate clusterA).GetClient
      = Except.error (ShipperError.ClusterNotReady (cluster.Invalidate clusterA).name)
    ∧ clusterA.GetChecksum = Except.ok clusterA.checksum :=
  ⟨(claim_C3_accessors.1 (cluster.Invalidate clusterA) (by decide)).2.1,
    (claim_C3_accessors.2.1 clusterA (by decide)).1⟩

/-- Witness for claim C4 at a concrete duplicate store. -/
theorem claim_C4_duplicate_store_witness :
    srv0.Store 1 clusterA2 = srv0
    ∧ (srv0.Store 1 clusterA2).Fetch clusterA2.name = some clusterA := by
  have h := claim_C4_duplicate_store srv0 1 0 clusterA2 clusterA (by decide) (by decide)
    (by decide)
  exact ⟨h.1, h.2.1⟩

/-- Witness for claim C5 at a concrete fresh store. -/
theorem claim_C5_fresh_store_witness :
    (NewServer.Store 0 clusterA).Count = NewServer.Count + 1
    ∧ (NewServer.Store 0 clusterA).Fetch clusterA.name = some clusterA :=
  claim_C5_fresh_store NewServer 0 clusterA (by decide)

/-- Witness for claim C6 at a concrete removal. -/
theorem claim_C6_remove_witness :
    (srv0.Remove "test-cluster").Fetch "test-cluster" = none
    ∧ (srv0.Remove "test-cluster").Count + 1 = srv0.Count := by
  have h := claim_C6_remove srv0 0 "test-cluster" clusterA (by decide) (by decide) (by decide)
  exact ⟨h.1, h.2.1⟩

/-- Witness for claim C7 at concrete store sequences. -/
theorem claim_C7_count_witness :
    (storeAll NewServer [(0, clusterA), (1, clusterC)]).Count = 2
    ∧ (storeAll (NewServer.Store 0 clusterA) [(1, clusterA2), (2, clusterA2)]).Count = 1
    ∧ srv0.Count = (srv0.registry.map Prod.fst).dedup.length := by
  refine ⟨?_, ?_, ?_⟩
  · exact claim_C7_count.2.2.2.1 [(0, clusterA), (1, clusterC)] (by decide)
  · exact claim_C7_count.2.2.2.2 0 clusterA [(1, clusterA2), (2, clusterA2)] (by decide)
  · exact claim_C7_count.2.1 srv0 (by decide)

/-- Witness for claim C9 at a concrete absent name. -/
theorem claim_C9_remove_absent_witness :
    NewServer.Remove "absent" = NewServer :=
  (claim_C9_remove_absent NewServer "absent" (by decide)).1

/-- Witness for claim C10 at concrete flag values where the name appears in
both lists. -/
theorem claim_C10_disable_overrides_witness :
    lookupA ctrlWitnessMap "traffic" = some false
    ∧ ctrlWitnessMap.map Prod.fst = controllers :=
  claim_C10_disable_overrides "application,traffic" "traffic" "traffic" ctrlWitnessMap
    (by decide) (by decide) (by decide) (by decide) (by decide)

end Shipper
